import Mathlib

/-!
Verification development for the substitution/grading rule engine
(`src/assignment`): tokens, logical and arithmetic rules, the rule store
(`Assignment`) with its resolution algorithm, and the string-rule
validation pipeline.

Modelling conventions:
* Rust `f64` is modelled by `ℚ` together with an explicit `nan` value
  (`F64`); the numeric claims below only involve arithmetic that is exact
  in both models.
* Rust `i32` is modelled by `Int` (no claim involves overflow).
* The external expression engines (`evalexpr` for boolean rules, `eval`
  for arithmetic rules) are external collaborators of the repository; they
  are modelled by small lexer/parser/evaluator functions restricted to
  exactly the token sets reachable through the repository's whitelist
  regexes.  Engine failures are collapsed into a `CompileErr` kind; the
  engines' exact message strings are not modelled.
* `HashMap<SubstitutionToken, _>` is modelled by an association list with
  `insert`-replaces-existing-key semantics (`insertAR` / `lookupAR`).
* Fallible Rust functions returning `Result` are modelled with `Except`;
  `&mut self` methods returning `Result<(), _>` are modelled as functions
  returning the updated store paired with the `Except` outcome.
-/

/-- Convenience: the character list underlying a string literal. -/
def chars (s : String) : List Char := s.data

/-- Decidable equality on `Except`, so that concrete runs of the embedded
operations can be checked by `decide`. -/
def exceptDecEq {ε α : Type} [DecidableEq ε] [DecidableEq α] :
    (x y : Except ε α) → Decidable (x = y)
  | .error a, .error b =>
      if h : a = b then .isTrue (by rw [h])
      else .isFalse (by intro hh; cases hh; exact h rfl)
  | .error _, .ok _ => .isFalse (by intro hh; cases hh)
  | .ok _, .error _ => .isFalse (by intro hh; cases hh)
  | .ok a, .ok b =>
      if h : a = b then .isTrue (by rw [h])
      else .isFalse (by intro hh; cases hh; exact h rfl)

instance {ε α : Type} [DecidableEq ε] [DecidableEq α] : DecidableEq (Except ε α) :=
  exceptDecEq

/-! ### Tokens and values -/

/-- Shallow embedding of `SubstitutionToken` (arithmetic_rule.rs): the closed
set of substitution tokens `M`, `P`, `T`. -/
inductive SubstitutionToken
  | M
  | P
  | T
deriving DecidableEq

/-- Model of Rust `f64` results: an exact rational, or NaN (the only
non-finite value the embedded code produces, via the explicit
`f64::NAN` fallback in `ArithmeticRuleStr::apply`). -/
inductive F64
  | num (q : ℚ)
  | nan
deriving DecidableEq

/-- A value is finite exactly when it is a rational number. -/
def F64.isFinite : F64 → Bool
  | .num _ => true
  | .nan => false

/-! ### Boolean expression engine (model of the `evalexpr` boundary)

`LogicalRuleStr` hands whitelisted strings (identifiers `A`/`B`/`C`,
spaces, `&&`, `||`, `!`, `==`, `!=`) to `evalexpr`.  The model below
lexes and parses that fragment with the usual precedence
(`||` < `&&` < `==`/`!=` < `!`) and evaluates it over booleans. -/

/-- Boolean rule variables. -/
inductive BVar
  | A
  | B
  | C
deriving DecidableEq

/-- Tokens of the boolean expression fragment. -/
inductive BTok
  | ident (v : BVar)
  | opAnd
  | opOr
  | opNot
  | opEq
  | opNe
deriving DecidableEq

/-- Failure kinds of the modelled expression engines.  The Rust engines
carry message strings; only the failure kind is modelled. -/
inductive CompileErr
  | invalidChar
  | unexpectedToken
  | unexpectedEnd
  | trailingTokens
  | fuelExhausted
deriving DecidableEq

/-- Modelled from the spec: lexer of the external boolean expression engine,
restricted to the characters reachable through the boolean whitelist. -/
def boolLex : List Char → Except CompileErr (List BTok)
  | [] => .ok []
  | ' ' :: cs => boolLex cs
  | 'A' :: cs => (boolLex cs).map (fun ts => .ident .A :: ts)
  | 'B' :: cs => (boolLex cs).map (fun ts => .ident .B :: ts)
  | 'C' :: cs => (boolLex cs).map (fun ts => .ident .C :: ts)
  | '&' :: '&' :: cs => (boolLex cs).map (fun ts => .opAnd :: ts)
  | '|' :: '|' :: cs => (boolLex cs).map (fun ts => .opOr :: ts)
  | '!' :: '=' :: cs => (boolLex cs).map (fun ts => .opNe :: ts)
  | '!' :: cs => (boolLex cs).map (fun ts => .opNot :: ts)
  | '=' :: '=' :: cs => (boolLex cs).map (fun ts => .opEq :: ts)
  | _ :: _ => .error .invalidChar

/-- Abstract syntax of the boolean fragment. -/
inductive BExp
  | var (v : BVar)
  | bnot (e : BExp)
  | band (e1 e2 : BExp)
  | bor (e1 e2 : BExp)
  | beq (e1 e2 : BExp)
  | bne (e1 e2 : BExp)

/-- Parse a unary-level boolean expression (`!` chains over identifiers). -/
def parseBUnary : Nat → List BTok → Except CompileErr (BExp × List BTok)
  | _, .ident v :: ts => .ok (.var v, ts)
  | Nat.succ fuel, .opNot :: ts =>
      match parseBUnary fuel ts with
      | .ok (e, ts2) => .ok (.bnot e, ts2)
      | .error er => .error er
  | 0, .opNot :: _ => .error .fuelExhausted
  | _, [] => .error .unexpectedEnd
  | _, _ => .error .unexpectedToken

/-- Left-associative loop for `==` / `!=`. -/
def parseBCmpLoop : Nat → BExp → List BTok → Except CompileErr (BExp × List BTok)
  | Nat.succ fuel, acc, .opEq :: ts =>
      match parseBUnary fuel ts with
      | .ok (e, ts2) => parseBCmpLoop fuel (.beq acc e) ts2
      | .error er => .error er
  | Nat.succ fuel, acc, .opNe :: ts =>
      match parseBUnary fuel ts with
      | .ok (e, ts2) => parseBCmpLoop fuel (.bne acc e) ts2
      | .error er => .error er
  | 0, _, .opEq :: _ => .error .fuelExhausted
  | 0, _, .opNe :: _ => .error .fuelExhausted
  | _, acc, ts => .ok (acc, ts)

/-- Parse a comparison-level boolean expression. -/
def parseBCmp (fuel : Nat) (ts : List BTok) : Except CompileErr (BExp × List BTok) :=
  match parseBUnary fuel ts with
  | .ok (e, ts2) => parseBCmpLoop fuel e ts2
  | .error er => .error er

/-- Left-associative loop for `&&`. -/
def parseBAndLoop : Nat → BExp → List BTok → Except CompileErr (BExp × List BTok)
  | Nat.succ fuel, acc, .opAnd :: ts =>
      match parseBCmp fuel ts with
      | .ok (e, ts2) => parseBAndLoop fuel (.band acc e) ts2
      | .error er => .error er
  | 0, _, .opAnd :: _ => .error .fuelExhausted
  | _, acc, ts => .ok (acc, ts)

/-- Parse a conjunction-level boolean expression. -/
def parseBAnd (fuel : Nat) (ts : List BTok) : Except CompileErr (BExp × List BTok) :=
  match parseBCmp fuel ts with
  | .ok (e, ts2) => parseBAndLoop fuel e ts2
  | .error er => .error er

/-- Left-associative loop for `||`. -/
def parseBOrLoop : Nat → BExp → List BTok → Except CompileErr (BExp × List BTok)
  | Nat.succ fuel, acc, .opOr :: ts =>
      match parseBAnd fuel ts with
      | .ok (e, ts2) => parseBOrLoop fuel (.bor acc e) ts2
      | .error er => .error er
  | 0, _, .opOr :: _ => .error .fuelExhausted
  | _, acc, ts => .ok (acc, ts)

/-- Parse a full boolean expression. -/
def parseBOr (fuel : Nat) (ts : List BTok) : Except CompileErr (BExp × List BTok) :=
  match parseBAnd fuel ts with
  | .ok (e, ts2) => parseBOrLoop fuel e ts2
  | .error er => .error er

/-- Modelled from the spec: parse of a boolean rule string by the external
boolean expression engine.  Parsing does not depend on any variable
context. -/
def parseB (s : List Char) : Except CompileErr BExp :=
  match boolLex s with
  | .error er => .error er
  | .ok ts =>
      match parseBOr (ts.length + 1) ts with
      | .error er => .error er
      | .ok (e, []) => .ok e
      | .ok (_, _ :: _) => .error .trailingTokens

/-- Evaluation of the boolean fragment; total, because every leaf of the
fragment is one of the boolean variables `A`, `B`, `C`. -/
def evalB : BExp → Bool → Bool → Bool → Bool
  | .var .A, a, _, _ => a
  | .var .B, _, b, _ => b
  | .var .C, _, _, c => c
  | .bnot e, a, b, c => !(evalB e a b c)
  | .band e1 e2, a, b, c => evalB e1 a b c && evalB e2 a b c
  | .bor e1 e2, a, b, c => evalB e1 a b c || evalB e2 a b c
  | .beq e1 e2, a, b, c => evalB e1 a b c == evalB e2 a b c
  | .bne e1 e2, a, b, c => evalB e1 a b c != evalB e2 a b c

/-- Modelled from the spec: `eval_boolean_with_context` of the external
boolean engine, on the context binding `A`, `B`, `C` to `a`, `b`, `c`. -/
def evalBooleanWithContext (s : List Char) (a b c : Bool) : Except CompileErr Bool :=
  match parseB s with
  | .error er => .error er
  | .ok ast => .ok (evalB ast a b c)

/-! ### Boolean whitelist (the regex in `LogicalRuleStr::validate`)

The source regex is `^([ABC ]|&&|==|!=|!|\|\|)+$`: the string must be a
non-empty concatenation of the listed single- and two-character tokens. -/

/-- Single-character alternatives of the boolean whitelist regex. -/
def boolSingleTok (c : Char) : Bool :=
  c = 'A' || c = 'B' || c = 'C' || c = ' ' || c = '!'

/-- Two-character alternatives of the boolean whitelist regex. -/
def boolPairTok (c1 c2 : Char) : Bool :=
  (c1 = '&' && c2 = '&') || (c1 = '=' && c2 = '=') ||
  (c1 = '!' && c2 = '=') || (c1 = '|' && c2 = '|')

/-- A character list is a (possibly empty) concatenation of boolean
whitelist alternatives.  The disjunction performs the backtracking the
regex alternation provides. -/
def boolTokSeg : List Char → Bool
  | [] => true
  | [c] => boolSingleTok c
  | c1 :: c2 :: cs =>
      (boolSingleTok c1 && boolTokSeg (c2 :: cs)) || (boolPairTok c1 c2 && boolTokSeg cs)

/-- Full-match semantics of the boolean whitelist regex (`+` requires at
least one token, so the empty string fails). -/
def boolWlMatch : List Char → Bool
  | [] => false
  | c :: cs => boolTokSeg (c :: cs)

/-- Validation failure kinds (§7 of the spec): `InvalidGrammar` for a
whitelist violation, `CompileError` for an engine failure. -/
inductive ValErr
  | invalidGrammar
  | compileError (e : CompileErr)
deriving DecidableEq

/-- Shallow embedding of `LogicalRuleStr::validate` (logical_rule.rs):
first the whitelist regex, then an evaluation of the string by the
boolean engine under the sample context `A = B = C = true`. -/
def LogicalRuleStr.validate (s : List Char) : Except ValErr Unit :=
  if boolWlMatch s then
    match evalBooleanWithContext s true true true with
    | .error er => .error (.compileError er)
    | .ok _ => .ok ()
  else .error .invalidGrammar

/-! ### Arithmetic expression engine (model of the `eval` crate boundary) -/

/-- Arithmetic rule variables. -/
inductive AVar
  | D
  | E
  | F
deriving DecidableEq

/-- Tokens of the arithmetic expression fragment. -/
inductive ATok
  | num (n : Nat)
  | var (v : AVar)
  | opAdd
  | opSub
  | opMul
  | opDiv
  | lparen
  | rparen
deriving DecidableEq

/-- Raw character-level tokens, before adjacent digits are grouped into
numbers. -/
inductive CTok
  | digit (n : Nat)
  | tok (t : ATok)
deriving DecidableEq

/-- Modelled from the spec: character-level lexer of the external
arithmetic expression engine, restricted to the characters reachable
through the arithmetic whitelist.  The engine reads numbers from ASCII
digits only (`Char.isDigit`), unlike the Unicode-aware whitelist regex:
a whitelisted string containing a non-ASCII Unicode digit reaches the
engine and fails there, as a compile error rather than a whitelist
rejection. -/
def aritLexChars : List Char → Except CompileErr (List CTok)
  | [] => .ok []
  | c :: cs =>
      if c.isDigit then (aritLexChars cs).map (fun ts => .digit (c.toNat - 48) :: ts)
      else if c = 'D' then (aritLexChars cs).map (fun ts => .tok (.var .D) :: ts)
      else if c = 'E' then (aritLexChars cs).map (fun ts => .tok (.var .E) :: ts)
      else if c = 'F' then (aritLexChars cs).map (fun ts => .tok (.var .F) :: ts)
      else if c = '+' then (aritLexChars cs).map (fun ts => .tok .opAdd :: ts)
      else if c = '-' then (aritLexChars cs).map (fun ts => .tok .opSub :: ts)
      else if c = '*' then (aritLexChars cs).map (fun ts => .tok .opMul :: ts)
      else if c = '/' then (aritLexChars cs).map (fun ts => .tok .opDiv :: ts)
      else if c = '(' then (aritLexChars cs).map (fun ts => .tok .lparen :: ts)
      else if c = ')' then (aritLexChars cs).map (fun ts => .tok .rparen :: ts)
      else .error .invalidChar

/-- Group maximal runs of adjacent digits into number tokens; the
optional accumulator holds the digit run read so far (most significant
digit first). -/
def groupNumsGo : List CTok → Option Nat → List ATok
  | [], none => []
  | [], some n => [ATok.num n]
  | .digit d :: rest, none => groupNumsGo rest (some d)
  | .digit d :: rest, some n => groupNumsGo rest (some (n * 10 + d))
  | .tok t :: rest, none => t :: groupNumsGo rest none
  | .tok t :: rest, some n => ATok.num n :: t :: groupNumsGo rest none

/-- Group maximal runs of adjacent digits into number tokens. -/
def groupNums (l : List CTok) : List ATok := groupNumsGo l none

/-- Abstract syntax of the arithmetic fragment. -/
inductive AExp
  | num (n : Nat)
  | var (v : AVar)
  | neg (e : AExp)
  | add (e1 e2 : AExp)
  | sub (e1 e2 : AExp)
  | mul (e1 e2 : AExp)
  | div (e1 e2 : AExp)

/-- Parse positions of the recursive-descent arithmetic parser: a
primary expression, the multiplicative loop (with its left operand), a
multiplicative-level expression, the additive loop (with its left
operand), or a full additive-level expression. -/
inductive AParseMode
  | primary
  | mulLoop (acc : AExp)
  | term
  | addLoop (acc : AExp)
  | addExpr

/-- Modelled from the spec: the recursive-descent parser of the external
arithmetic expression engine, as a single fueled step function.  A
unary minus is accepted only directly after an opening parenthesis,
matching the engine behaviour the repository works around by wrapping
`-X` in parentheses; a number or variable directly followed by `(` is
not a valid operand sequence. -/
def parseARun : Nat → AParseMode → List ATok → Except CompileErr (AExp × List ATok)
  | 0, _, _ => .error .fuelExhausted
  | Nat.succ fuel, .primary, ts =>
      match ts with
      | .num n :: ts2 => .ok (.num n, ts2)
      | .var v :: ts2 => .ok (.var v, ts2)
      | .lparen :: .opSub :: ts2 =>
          match parseARun fuel .primary ts2 with
          | .error er => .error er
          | .ok (p, ts3) =>
              match parseARun fuel (.mulLoop (AExp.neg p)) ts3 with
              | .error er => .error er
              | .ok (t, ts4) =>
                  match parseARun fuel (.addLoop t) ts4 with
                  | .error er => .error er
                  | .ok (e, .rparen :: ts5) => .ok (e, ts5)
                  | .ok (_, _) => .error .unexpectedToken
      | .lparen :: ts2 =>
          match parseARun fuel .addExpr ts2 with
          | .error er => .error er
          | .ok (e, .rparen :: ts3) => .ok (e, ts3)
          | .ok (_, _) => .error .unexpectedToken
      | [] => .error .unexpectedEnd
      | _ => .error .unexpectedToken
  | Nat.succ fuel, .mulLoop acc, ts =>
      match ts with
      | .opMul :: ts2 =>
          match parseARun fuel .primary ts2 with
          | .error er => .error er
          | .ok (p, ts3) => parseARun fuel (.mulLoop (AExp.mul acc p)) ts3
      | .opDiv :: ts2 =>
          match parseARun fuel .primary ts2 with
          | .error er => .error er
          | .ok (p, ts3) => parseARun fuel (.mulLoop (AExp.div acc p)) ts3
      | _ => .ok (acc, ts)
  | Nat.succ fuel, .term, ts =>
      match parseARun fuel .primary ts with
      | .error er => .error er
      | .ok (p, ts2) => parseARun fuel (.mulLoop p) ts2
  | Nat.succ fuel, .addLoop acc, ts =>
      match ts with
      | .opAdd :: ts2 =>
          match parseARun fuel .term ts2 with
          | .error er => .error er
          | .ok (t, ts3) => parseARun fuel (.addLoop (AExp.add acc t)) ts3
      | .opSub :: ts2 =>
          match parseARun fuel .term ts2 with
          | .error er => .error er
          | .ok (t, ts3) => parseARun fuel (.addLoop (AExp.sub acc t)) ts3
      | _ => .ok (acc, ts)
  | Nat.succ fuel, .addExpr, ts =>
      match parseARun fuel .term ts with
      | .error er => .error er
      | .ok (t, ts2) => parseARun fuel (.addLoop t) ts2

/-- Modelled from the spec: compilation of an arithmetic rule string
(`Expr::new(..).compile()` of the external engine).  Parsing does not
depend on the values bound to `D`, `E`, `F`. -/
def parseA (s : List Char) : Except CompileErr AExp :=
  match aritLexChars s with
  | .error er => .error er
  | .ok cts =>
      let ts := groupNums cts
      match parseARun (5 * ts.length + 10) .addExpr ts with
      | .error er => .error er
      | .ok (e, []) => .ok e
      | .ok (_, _ :: _) => .error .trailingTokens

/-- Runtime values of the arithmetic engine: a number, or the null value
the engine produces for a division by zero (whose `as_f64` is `None`). -/
inductive AVal
  | num (q : ℚ)
  | null
deriving DecidableEq

/-- Evaluation of the arithmetic fragment.  Division by zero yields
`null`; `null` propagates through every operator. -/
def evalA : AExp → ℚ → Int → Int → AVal
  | .num n, _, _, _ => .num n
  | .var .D, d, _, _ => .num d
  | .var .E, _, e, _ => .num e
  | .var .F, _, _, f => .num f
  | .neg e1, d, e, f =>
      match evalA e1 d e f with
      | .num q => .num (-q)
      | .null => .null
  | .add e1 e2, d, e, f =>
      match evalA e1 d e f, evalA e2 d e f with
      | .num q1, .num q2 => .num (q1 + q2)
      | _, _ => .null
  | .sub e1 e2, d, e, f =>
      match evalA e1 d e f, evalA e2 d e f with
      | .num q1, .num q2 => .num (q1 - q2)
      | _, _ => .null
  | .mul e1 e2, d, e, f =>
      match evalA e1 d e f, evalA e2 d e f with
      | .num q1, .num q2 => .num (q1 * q2)
      | _, _ => .null
  | .div e1 e2, d, e, f =>
      match evalA e1 d e f, evalA e2 d e f with
      | .num q1, .num q2 => if q2 = 0 then .null else .num (q1 / q2)
      | _, _ => .null

/-! ### Arithmetic whitelist and normalization
(`ArithmeticRuleStr::validate`, arithmetic_rule.rs)

The source regex is `^([\dDEF ]|\+|-|\*|/|\(|\))+$`; every alternative is
a single character, so the full match is just a character whitelist on a
non-empty string.  In the regex engine the source uses, `\d` is
Unicode-aware by default and matches every character of general category
Nd (decimal digit), not only ASCII `0`-`9`; the table below lists the Nd
ranges (Unicode 15.1, 680 code points — the exact set depends on the
Unicode version bundled with the engine, which only moves the boundary
for scripts added in other versions).  After the regex the source
removes all whitespace and wraps each occurrence of the pattern
`-[\dDEF]` in parentheses. -/

/-- Code-point ranges of the Unicode general category Nd (decimal
digits), each given as an inclusive lower and upper bound. -/
def ndDigitRanges : List (Nat × Nat) :=
  [(0x0030, 0x0039), (0x0660, 0x0669), (0x06F0, 0x06F9), (0x07C0, 0x07C9),
   (0x0966, 0x096F), (0x09E6, 0x09EF), (0x0A66, 0x0A6F), (0x0AE6, 0x0AEF),
   (0x0B66, 0x0B6F), (0x0BE6, 0x0BEF), (0x0C66, 0x0C6F), (0x0CE6, 0x0CEF),
   (0x0D66, 0x0D6F), (0x0DE6, 0x0DEF), (0x0E50, 0x0E59), (0x0ED0, 0x0ED9),
   (0x0F20, 0x0F29), (0x1040, 0x1049), (0x1090, 0x1099), (0x17E0, 0x17E9),
   (0x1810, 0x1819), (0x1946, 0x194F), (0x19D0, 0x19D9), (0x1A80, 0x1A89),
   (0x1A90, 0x1A99), (0x1B50, 0x1B59), (0x1BB0, 0x1BB9), (0x1C40, 0x1C49),
   (0x1C50, 0x1C59), (0xA620, 0xA629), (0xA8D0, 0xA8D9), (0xA900, 0xA909),
   (0xA9D0, 0xA9D9), (0xA9F0, 0xA9F9), (0xAA50, 0xAA59), (0xABF0, 0xABF9),
   (0xFF10, 0xFF19), (0x104A0, 0x104A9), (0x10D30, 0x10D39),
   (0x11066, 0x1106F), (0x110F0, 0x110F9), (0x11136, 0x1113F),
   (0x111D0, 0x111D9), (0x112F0, 0x112F9), (0x11450, 0x11459),
   (0x114D0, 0x114D9), (0x11650, 0x11659), (0x116C0, 0x116C9),
   (0x11730, 0x11739), (0x118E0, 0x118E9), (0x11950, 0x11959),
   (0x11C50, 0x11C59), (0x11D50, 0x11D59), (0x11DA0, 0x11DA9),
   (0x11F50, 0x11F59), (0x16A60, 0x16A69), (0x16AC0, 0x16AC9),
   (0x16B50, 0x16B59), (0x1D7CE, 0x1D7FF), (0x1E140, 0x1E149),
   (0x1E2F0, 0x1E2F9), (0x1E4F0, 0x1E4F9), (0x1E950, 0x1E959),
   (0x1FBF0, 0x1FBF9)]

/-- Characters matched by `\d` in the source's Unicode-aware regex
engine: the Unicode Nd digits. -/
def isNdDigit (c : Char) : Bool :=
  ndDigitRanges.any (fun p => decide (p.1 ≤ c.toNat) && decide (c.toNat ≤ p.2))

/-- Characters admitted by the arithmetic whitelist regex (`\d` matches
every Unicode Nd digit). -/
def aritAllowedChar (c : Char) : Bool :=
  isNdDigit c || c = 'D' || c = 'E' || c = 'F' || c = ' ' ||
  c = '+' || c = '-' || c = '*' || c = '/' || c = '(' || c = ')'

/-- Full-match semantics of the arithmetic whitelist regex. -/
def aritWlMatch : List Char → Bool
  | [] => false
  | c :: cs => (c :: cs).all aritAllowedChar

/-- Characters the `-[\dDEF]` wrapping regex admits after the minus
(again with `\d` Unicode-aware). -/
def wrapTargetChar (c : Char) : Bool :=
  isNdDigit c || c = 'D' || c = 'E' || c = 'F'

/-- Left-to-right, non-overlapping replacement of every match of
`-[\dDEF]` by the same two characters wrapped in parentheses
(`re.replace_all` in the source). -/
def wrapMinus : List Char → List Char
  | [] => []
  | '-' :: c :: rest =>
      if wrapTargetChar c then '(' :: '-' :: c :: ')' :: wrapMinus rest
      else '-' :: wrapMinus (c :: rest)
  | c :: rest => c :: wrapMinus rest

/-- Shallow embedding of `ArithmeticRuleStr::validate`: whitelist regex,
whitespace removal, minus wrapping, then compilation by the arithmetic
engine; returns the normalized string. -/
def ArithmeticRuleStr.validate (s : List Char) : Except ValErr (List Char) :=
  if aritWlMatch s then
    let s2 := wrapMinus (s.filter (fun c => !c.isWhitespace))
    match parseA s2 with
    | .error er => .error (.compileError er)
    | .ok _ => .ok s2
  else .error .invalidGrammar

/-! ### Rule types (logical_rule.rs / arithmetic_rule.rs)

The Rust `LogicalRule` / `ArithmeticRule` traits have two implementors
each: a closure-backed rule and a string-backed rule.  A string-backed
rule can only be constructed through `new`, which runs `validate`; the
constructors below carry that validation fact, mirroring that privacy
invariant. -/

/-- Shallow embedding of the `LogicalRule` trait objects: the
closure-backed `LogicalRuleFn` and the string-backed `LogicalRuleStr`
(which is only constructible from a string that passed validation). -/
inductive LogicalRule
  | fnRule (token : SubstitutionToken) (rule_fn : Bool → Bool → Bool → Bool)
  | strRule (token : SubstitutionToken) (rule_str : List Char)
      (valid : LogicalRuleStr.validate rule_str = .ok ())

/-- Shallow embedding of `LogicalRule::apply`: `Some token` when the rule
function or expression evaluates to `true`, `None` otherwise.  The
`.error` fallback models the `unwrap` in `LogicalRuleStr::apply`; it is
unreachable for rules carrying a validation certificate. -/
def LogicalRule.apply : LogicalRule → Bool → Bool → Bool → Option SubstitutionToken
  | .fnRule tok fn, a, b, c => if fn a b c then some tok else none
  | .strRule tok s _, a, b, c =>
      match evalBooleanWithContext s a b c with
      | .ok r => if r then some tok else none
      | .error _ => none

/-- Shallow embedding of `LogicalRuleStr::new`: validate, then store the
string unchanged. -/
def LogicalRuleStr.new (token : SubstitutionToken) (s : List Char) :
    Except ValErr LogicalRule :=
  match h : LogicalRuleStr.validate s with
  | .error er => .error er
  | .ok _ => .ok (.strRule token s h)

/-- Shallow embedding of the `ArithmeticRule` trait objects: the
closure-backed `ArithmeticRuleFn` and the string-backed
`ArithmeticRuleStr`, which stores the normalized string produced by
validation. -/
inductive ArithmeticRule
  | fnRule (rule_fn : ℚ → Int → Int → F64)
  | strRule (rule_str : List Char)
      (valid : ∃ s0, ArithmeticRuleStr.validate s0 = .ok rule_str)

/-- Shallow embedding of `ArithmeticRule::apply`.  For a string rule the
stored expression is re-parsed and evaluated; a `null` engine value (the
division-by-zero case) is converted to NaN, mirroring the explicit
`f64::NAN` fallback in the source.  The parse-error fallback models the
`unwrap`; it is unreachable for rules carrying a validation witness. -/
def ArithmeticRule.apply : ArithmeticRule → ℚ → Int → Int → F64
  | .fnRule fn, d, e, f => fn d e f
  | .strRule s _, d, e, f =>
      match parseA s with
      | .ok ast =>
          match evalA ast d e f with
          | .num q => .num q
          | .null => .nan
      | .error _ => .nan

/-- Shallow embedding of `ArithmeticRuleStr::new`: validate, then store
the normalized string. -/
def ArithmeticRuleStr.new (s : List Char) : Except ValErr ArithmeticRule :=
  match h : ArithmeticRuleStr.validate s with
  | .error er => .error er
  | .ok ns => .ok (.strRule ns ⟨s, h⟩)

/-! ### The rule store (`Assignment`, mod.rs) -/

/-- Shallow embedding of `InputSet`: the six-field input tuple. -/
structure InputSet where
  a : Bool
  b : Bool
  c : Bool
  d : ℚ
  e : Int
  f : Int

/-- The all-default input (`InputSet::default()`). -/
def InputSet.default : InputSet := ⟨false, false, false, 0, 0, 0⟩

/-- Shallow embedding of `Assignment`: an insertion-ordered sequence of
logical rules and a token-keyed arithmetic rule map (association list
with HashMap semantics). -/
structure Assignment where
  logical_rules : List LogicalRule
  arithmetic_rules : List (SubstitutionToken × ArithmeticRule)

/-- Evaluation failure kinds of `Assignment::eval` (the source reports
them as the strings "Failed to apply logical rule." and "Failed to find
arithmetic rule for token."). -/
inductive EvalErr
  | noMatchingLogicalRule
  | noArithmeticRuleForToken
deriving DecidableEq

/-- HashMap-insert semantics on the association list: replace the value
under an existing key, otherwise add the binding. -/
def insertAR : List (SubstitutionToken × ArithmeticRule) → SubstitutionToken →
    ArithmeticRule → List (SubstitutionToken × ArithmeticRule)
  | [], t, r => [(t, r)]
  | (t0, r0) :: rest, t, r =>
      if t0 = t then (t, r) :: rest else (t0, r0) :: insertAR rest t r

/-- HashMap-get semantics on the association list. -/
def lookupAR : List (SubstitutionToken × ArithmeticRule) → SubstitutionToken →
    Option ArithmeticRule
  | [], _ => none
  | (t0, r0) :: rest, t => if t0 = t then some r0 else lookupAR rest t

/-- Shallow embedding of `Assignment::new`: the empty store. -/
def Assignment.new : Assignment := ⟨[], []⟩

/-- Shallow embedding of `Assignment::add_logical_rule`: `Vec::push`. -/
def Assignment.add_logical_rule (asg : Assignment) (rule : LogicalRule) : Assignment :=
  { asg with logical_rules := asg.logical_rules ++ [rule] }

/-- Shallow embedding of `Assignment::add_arithmetic_rule`:
`HashMap::insert`. -/
def Assignment.add_arithmetic_rule (asg : Assignment) (token : SubstitutionToken)
    (rule : ArithmeticRule) : Assignment :=
  { asg with arithmetic_rules := insertAR asg.arithmetic_rules token rule }

/-- Shallow embedding of `Assignment::add_logical_rule_from_fn`. -/
def Assignment.add_logical_rule_from_fn (asg : Assignment) (token : SubstitutionToken)
    (fn : Bool → Bool → Bool → Bool) : Assignment :=
  asg.add_logical_rule (.fnRule token fn)

/-- Shallow embedding of `Assignment::add_arithmetic_rule_from_fn`. -/
def Assignment.add_arithmetic_rule_from_fn (asg : Assignment) (token : SubstitutionToken)
    (fn : ℚ → Int → Int → F64) : Assignment :=
  asg.add_arithmetic_rule token (.fnRule fn)

/-- Shallow embedding of `Assignment::add_logical_rule_from_str`: on a
validation error the store is returned unchanged together with the
error, mirroring the early `?` return before the mutation. -/
def Assignment.add_logical_rule_from_str (asg : Assignment) (token : SubstitutionToken)
    (s : List Char) : Assignment × Except ValErr Unit :=
  match LogicalRuleStr.new token s with
  | .error er => (asg, .error er)
  | .ok rule => (asg.add_logical_rule rule, .ok ())

/-- Shallow embedding of `Assignment::add_arithmetic_rule_from_str`. -/
def Assignment.add_arithmetic_rule_from_str (asg : Assignment) (token : SubstitutionToken)
    (s : List Char) : Assignment × Except ValErr Unit :=
  match ArithmeticRuleStr.new s with
  | .error er => (asg, .error er)
  | .ok rule => (asg.add_arithmetic_rule token rule, .ok ())

/-- The token-selection loop of `Assignment::eval`: iterate the logical
rules in insertion order, overwriting the selected token whenever a rule
returns one. -/
def selectToken (rules : List LogicalRule) (a b c : Bool) : Option SubstitutionToken :=
  rules.foldl
    (fun tok r =>
      match r.apply a b c with
      | some t => some t
      | none => tok)
    none

/-- Shallow embedding of `Assignment::eval`: select a token through the
logical rules (last match wins), look up its arithmetic rule, and return
the token paired with the rule's result. -/
def Assignment.eval (asg : Assignment) (args : InputSet) :
    Except EvalErr (SubstitutionToken × F64) :=
  match selectToken asg.logical_rules args.a args.b args.c with
  | none => .error .noMatchingLogicalRule
  | some token =>
      match lookupAR asg.arithmetic_rules token with
      | none => .error .noArithmeticRuleForToken
      | some rule => .ok (token, rule.apply args.d args.e args.f)

/-- Shallow embedding of `Assignment::add_base_rules`: the built-in base
rule set (three logical rules and three arithmetic formulas). -/
def Assignment.add_base_rules (asg : Assignment) : Assignment :=
  ((((((asg.add_logical_rule_from_fn .M (fun a b c => a && b && !c)
      ).add_logical_rule_from_fn .P (fun a b c => a && b && c)
      ).add_logical_rule_from_fn .T (fun a b c => !a && b && c)
      ).add_arithmetic_rule_from_fn .M (fun d e _ => .num (d + d * (e : ℚ) / 10))
      ).add_arithmetic_rule_from_fn .P (fun d e f => .num (d + d * ((e - f : Int) : ℚ) / 25.5))
      ).add_arithmetic_rule_from_fn .T (fun d _ f => .num (d - d * (f : ℚ) / 30)))

/-- Shallow embedding of `Assignment::add_custom_rules`: the built-in
custom rule set (two logical rules and two arithmetic formulas). -/
def Assignment.add_custom_rules (asg : Assignment) : Assignment :=
  ((((asg.add_logical_rule_from_fn .T (fun a b c => a && b && !c)
     ).add_logical_rule_from_fn .M (fun a b c => a && !b && c)
     ).add_arithmetic_rule_from_fn .P (fun d e _ => .num (2 * d + d * (e : ℚ) / 100))
     ).add_arithmetic_rule_from_fn .M (fun d e f => .num ((f : ℚ) + d + d * (e : ℚ) / 100)))

/-- Shallow embedding of `Assignment::with_rules`. -/
def Assignment.with_rules (asg : Assignment) (base custom : Bool) : Assignment :=
  let asg1 := if base then asg.add_base_rules else asg
  if custom then asg1.add_custom_rules else asg1

/-- Number of arithmetic-rule bindings stored under a token. -/
def countKey (t : SubstitutionToken) (l : List (SubstitutionToken × ArithmeticRule)) : Nat :=
  (l.filter (fun p => decide (p.1 = t))).length

/-- Rule stores reachable through the public `Assignment` interface. -/
inductive Reachable : Assignment → Prop
  | new : Reachable Assignment.new
  | add_logical (asg : Assignment) (r : LogicalRule) :
      Reachable asg → Reachable (asg.add_logical_rule r)
  | add_arithmetic (asg : Assignment) (t : SubstitutionToken) (r : ArithmeticRule) :
      Reachable asg → Reachable (asg.add_arithmetic_rule t r)
  | add_logical_str (asg : Assignment) (t : SubstitutionToken) (s : List Char) :
      Reachable asg → Reachable (asg.add_logical_rule_from_str t s).1
  | add_arithmetic_str (asg : Assignment) (t : SubstitutionToken) (s : List Char) :
      Reachable asg → Reachable (asg.add_arithmetic_rule_from_str t s).1
  | with_rules (asg : Assignment) (b c : Bool) :
      Reachable asg → Reachable (asg.with_rules b c)

/-- First of two optional tokens that is present (`x`, falling back to
`y`), used to state the override policy of the selection loop. -/
def optOr (x y : Option SubstitutionToken) : Option SubstitutionToken :=
  match x with
  | some t => some t
  | none => y

/-- Characters that can occur in a string matched by the boolean
whitelist regex. -/
def boolAllowedChar (c : Char) : Bool :=
  c = 'A' || c = 'B' || c = 'C' || c = ' ' ||
  c = '&' || c = '|' || c = '=' || c = '!'

/-- Spec example for the override policy: rule 1 maps `a = true` to `M`,
rule 2 (added later) maps `b = true` to `T`; both tokens have an
arithmetic rule so that evaluation succeeds. -/
def lastMatchExample : Assignment :=
  ((((Assignment.new.add_logical_rule_from_fn .M (fun a _ _ => a)
      ).add_logical_rule_from_fn .T (fun _ b _ => b)
      ).add_arithmetic_rule_from_fn .M (fun _ _ _ => .num 0)
      ).add_arithmetic_rule_from_fn .T (fun _ _ _ => .num 0))

/-- Store used to exercise arithmetic-rule replacement: one
always-matching logical rule for `M` and an initial arithmetic rule for
`M` returning `1`. -/
def replaceExampleBase : Assignment :=
  (Assignment.new.add_logical_rule_from_fn .M (fun _ _ _ => true)
    ).add_arithmetic_rule_from_fn .M (fun _ _ _ => .num 1)

/-- Replacement arithmetic rule returning `7`. -/
def replaceExampleRule : ArithmeticRule := .fnRule (fun _ _ _ => .num 7)

/-- Store with a logical rule for `M` but no arithmetic rules. -/
def noArithExample : Assignment :=
  Assignment.new.add_logical_rule_from_fn .M (fun _ _ _ => true)

/-! ### Helper lemmas -/

theorem optOr_some (t : SubstitutionToken) (y : Option SubstitutionToken) :
    optOr (some t) y = some t := rfl

theorem optOr_none_left (x : Option SubstitutionToken) : optOr none x = x := rfl

theorem optOr_none_right (x : Option SubstitutionToken) : optOr x none = x := by
  cases x <;> rfl

theorem optOr_assoc (x y z : Option SubstitutionToken) :
    optOr (optOr x y) z = optOr x (optOr y z) := by
  cases x <;> rfl

theorem findSome?_append (f : LogicalRule → Option SubstitutionToken)
    (l1 l2 : List LogicalRule) :
    (l1 ++ l2).findSome? f = optOr (l1.findSome? f) (l2.findSome? f) := by
  induction l1 with
  | nil => simp [List.findSome?, optOr_none_left]
  | cons r rs ih =>
      simp only [List.cons_append, List.findSome?]
      cases h : f r
      · simpa [h] using ih
      · simp [h, optOr]

theorem foldl_select_eq (a b c : Bool) (rules : List LogicalRule) :
    ∀ acc : Option SubstitutionToken,
      rules.foldl
        (fun tok r =>
          match r.apply a b c with
          | some t => some t
          | none => tok)
        acc
      = optOr ((rules.reverse).findSome? (fun r => r.apply a b c)) acc := by
  induction rules with
  | nil => intro acc; simp [List.findSome?, optOr_none_left]
  | cons r rs ih =>
      intro acc
      simp only [List.foldl_cons, List.reverse_cons]
      rw [ih, findSome?_append]
      cases h : r.apply a b c
      · simp [h, List.findSome?, optOr_none_right]
      · simp [h, List.findSome?, optOr_assoc, optOr_some]

/-- The selection loop of `Assignment::eval` computes the token of the
last matching rule: the first match found when scanning the rule
sequence from its end. -/
theorem selectToken_eq_lastMatch (rules : List LogicalRule) (a b c : Bool) :
    selectToken rules a b c = (rules.reverse).findSome? (fun r => r.apply a b c) := by
  rw [selectToken, foldl_select_eq, optOr_none_right]

theorem findSome?_eq_none_of_all_none (f : LogicalRule → Option SubstitutionToken)
    (l : List LogicalRule) (h : ∀ r ∈ l, f r = none) : l.findSome? f = none := by
  induction l with
  | nil => simp [List.findSome?]
  | cons r rs ih =>
      simp only [List.findSome?, h r (by simp)]
      exact ih (fun x hx => h x (by simp [hx]))

theorem selectToken_of_no_match (rules : List LogicalRule) (a b c : Bool)
    (h : ∀ r ∈ rules, r.apply a b c = none) : selectToken rules a b c = none := by
  rw [selectToken_eq_lastMatch]
  exact findSome?_eq_none_of_all_none _ _ (fun r hr => h r (List.mem_reverse.mp hr))

theorem Assignment.eval_eq (asg : Assignment) (args : InputSet) :
    asg.eval args =
      match selectToken asg.logical_rules args.a args.b args.c with
      | none => .error .noMatchingLogicalRule
      | some token =>
          match lookupAR asg.arithmetic_rules token with
          | none => .error .noArithmeticRuleForToken
          | some rule => .ok (token, rule.apply args.d args.e args.f) := rfl

/-! ### Claim theorems -/

/-- C1: for every rule store and input tuple, the token-selection loop of
`evaluate` iterates the logical rules in insertion order and lets later
matches override earlier ones, so the selected token (and the token
`evaluate` returns) is the token of the last matching rule; on the
spec's example (`a → M` added first, `b → T` added second, input with
`a` and `b` both true), evaluation resolves to `T`. -/
theorem claim1_last_match_wins :
    (∀ (rules : List LogicalRule) (a b c : Bool),
        selectToken rules a b c = (rules.reverse).findSome? (fun r => r.apply a b c)) ∧
    (∀ (asg : Assignment) (args : InputSet) (t : SubstitutionToken) (v : F64),
        asg.eval args = .ok (t, v) →
        (asg.logical_rules.reverse).findSome? (fun r => r.apply args.a args.b args.c)
          = some t) ∧
    lastMatchExample.eval ⟨true, true, false, 0, 0, 0⟩ = .ok (.T, .num 0) := by
  refine ⟨selectToken_eq_lastMatch, ?_, by decide⟩
  intro asg args t v h
  rw [Assignment.eval_eq] at h
  cases hsel : selectToken asg.logical_rules args.a args.b args.c with
  | none => rw [hsel] at h; exact Except.noConfusion h
  | some tok =>
      rw [hsel] at h
      dsimp only at h
      cases hlk : lookupAR asg.arithmetic_rules tok with
      | none => rw [hlk] at h; exact Except.noConfusion h
      | some rule =>
          rw [hlk] at h
          dsimp only at h
          simp only [Except.ok.injEq, Prod.mk.injEq] at h
          obtain ⟨rfl, rfl⟩ := h
          rw [← selectToken_eq_lastMatch]
          exact hsel

/-- Witness for C1: on the spec's two-rule example, the last matching
rule (scanning from the end) carries token `T`. -/
theorem claim1_last_match_wins_witness :
    (lastMatchExample.logical_rules.reverse).findSome?
      (fun r => r.apply true true false) = some .T :=
  claim1_last_match_wins.2.1 lastMatchExample ⟨true, true, false, 0, 0, 0⟩ .T (.num 0)
    (by decide)

/-- C5: for every rule store and input tuple on which no logical rule
returns a token (in particular the empty store on the all-default
input), `evaluate` returns the `NoMatchingLogicalRule` error as data,
and it does so whatever the arithmetic mapping contains (the arithmetic
rules are not consulted). -/
theorem claim5_no_match_error :
    (∀ (asg : Assignment) (args : InputSet),
        (∀ r ∈ asg.logical_rules, r.apply args.a args.b args.c = none) →
        ∀ ars : List (SubstitutionToken × ArithmeticRule),
          Assignment.eval ⟨asg.logical_rules, ars⟩ args = .error .noMatchingLogicalRule) ∧
    Assignment.new.eval InputSet.default = .error .noMatchingLogicalRule := by
  refine ⟨?_, by decide⟩
  intro asg args h ars
  rw [Assignment.eval_eq]
  rw [selectToken_of_no_match _ _ _ _ h]

/-- Witness for C5: the empty store on the all-default input. -/
theorem claim5_no_match_error_witness :
    Assignment.eval ⟨[], []⟩ InputSet.default = .error .noMatchingLogicalRule :=
  claim5_no_match_error.1 Assignment.new InputSet.default
    (by intro r hr; cases hr) []

/-- C6: for every rule store and input tuple for which the logical-rule
chain selects a token with no registered arithmetic rule, `evaluate`
returns the `NoArithmeticRuleForToken` error as data. -/
theorem claim6_no_arith_rule_error :
    ∀ (asg : Assignment) (args : InputSet) (t : SubstitutionToken),
      selectToken asg.logical_rules args.a args.b args.c = some t →
      lookupAR asg.arithmetic_rules t = none →
      asg.eval args = .error .noArithmeticRuleForToken := by
  intro asg args t hsel hlk
  rw [Assignment.eval_eq, hsel]
  dsimp only
  rw [hlk]

/-- Witness for C6: a store with an always-matching logical rule for `M`
and no arithmetic rules. -/
theorem claim6_no_arith_rule_error_witness :
    noArithExample.eval InputSet.default = .error .noArithmeticRuleForToken :=
  claim6_no_arith_rule_error noArithExample InputSet.default .M rfl rfl

theorem lookupAR_insertAR_self (l : List (SubstitutionToken × ArithmeticRule))
    (t : SubstitutionToken) (r : ArithmeticRule) :
    lookupAR (insertAR l t r) t = some r := by
  induction l with
  | nil => simp [insertAR, lookupAR]
  | cons p rest ih =>
      obtain ⟨t0, r0⟩ := p
      by_cases h : t0 = t
      · simp [insertAR, h, lookupAR]
      · simp [insertAR, h, lookupAR, ih]

theorem countKey_cons (t t0 : SubstitutionToken) (r0 : ArithmeticRule)
    (l : List (SubstitutionToken × ArithmeticRule)) :
    countKey t ((t0, r0) :: l) =
      (if t0 = t then countKey t l + 1 else countKey t l) := by
  by_cases h : t0 = t
  · simp [countKey, List.filter_cons, h]
  · simp [countKey, List.filter_cons, h]

theorem countKey_insertAR_self (l : List (SubstitutionToken × ArithmeticRule))
    (t : SubstitutionToken) (r : ArithmeticRule) :
    countKey t (insertAR l t r) = max (countKey t l) 1 := by
  induction l with
  | nil => simp [insertAR, countKey, List.filter]
  | cons p rest ih =>
      obtain ⟨t0, r0⟩ := p
      by_cases h : t0 = t
      · subst h
        simp [insertAR, countKey_cons]
      · simp only [insertAR, h, if_false, countKey_cons, ih]

theorem countKey_insertAR_other (l : List (SubstitutionToken × ArithmeticRule))
    (t : SubstitutionToken) (r : ArithmeticRule) (t2 : SubstitutionToken)
    (h : t2 ≠ t) :
    countKey t2 (insertAR l t r) = countKey t2 l := by
  have h2 : t ≠ t2 := Ne.symm h
  induction l with
  | nil => simp [insertAR, countKey, List.filter, h2]
  | cons p rest ih =>
      obtain ⟨t0, r0⟩ := p
      by_cases h0 : t0 = t
      · subst h0
        simp [insertAR, countKey_cons, h2]
      · simp only [insertAR, h0, if_false, countKey_cons, ih]

theorem countKey_le_one_insert (l : List (SubstitutionToken × ArithmeticRule))
    (t0 : SubstitutionToken) (r : ArithmeticRule)
    (h : ∀ t, countKey t l ≤ 1) :
    ∀ t, countKey t (insertAR l t0 r) ≤ 1 := by
  intro t
  by_cases ht : t = t0
  · subst ht
    rw [countKey_insertAR_self]
    exact Nat.max_le.mpr ⟨h t, Nat.le_refl 1⟩
  · rw [countKey_insertAR_other l t0 r t ht]
    exact h t

theorem countKey_add_base (asg : Assignment)
    (h : ∀ t, countKey t asg.arithmetic_rules ≤ 1) :
    ∀ t, countKey t (asg.add_base_rules).arithmetic_rules ≤ 1 := by
  simp only [Assignment.add_base_rules, Assignment.add_arithmetic_rule_from_fn,
    Assignment.add_logical_rule_from_fn, Assignment.add_arithmetic_rule,
    Assignment.add_logical_rule]
  exact countKey_le_one_insert _ _ _
    (countKey_le_one_insert _ _ _ (countKey_le_one_insert _ _ _ h))

theorem countKey_add_custom (asg : Assignment)
    (h : ∀ t, countKey t asg.arithmetic_rules ≤ 1) :
    ∀ t, countKey t (asg.add_custom_rules).arithmetic_rules ≤ 1 := by
  simp only [Assignment.add_custom_rules, Assignment.add_arithmetic_rule_from_fn,
    Assignment.add_logical_rule_from_fn, Assignment.add_arithmetic_rule,
    Assignment.add_logical_rule]
  exact countKey_le_one_insert _ _ _ (countKey_le_one_insert _ _ _ h)

theorem reachable_countKey_le_one (asg : Assignment) (h : Reachable asg) :
    ∀ t, countKey t asg.arithmetic_rules ≤ 1 := by
  induction h with
  | new => intro t; simp [Assignment.new, countKey, List.filter]
  | add_logical asg r _ ih =>
      intro t
      simpa [Assignment.add_logical_rule] using ih t
  | add_arithmetic asg t0 r _ ih =>
      exact countKey_le_one_insert _ _ _ ih
  | add_logical_str asg t0 s _ ih =>
      intro t
      cases hn : LogicalRuleStr.new t0 s with
      | error er =>
          simpa [Assignment.add_logical_rule_from_str, hn] using ih t
      | ok rule =>
          simpa [Assignment.add_logical_rule_from_str, hn,
            Assignment.add_logical_rule] using ih t
  | add_arithmetic_str asg t0 s _ ih =>
      intro t
      cases hn : ArithmeticRuleStr.new s with
      | error er =>
          simpa [Assignment.add_arithmetic_rule_from_str, hn] using ih t
      | ok rule =>
          have := countKey_le_one_insert asg.arithmetic_rules t0 rule ih t
          simpa [Assignment.add_arithmetic_rule_from_str, hn,
            Assignment.add_arithmetic_rule] using this
  | with_rules asg b c _ ih =>
      cases b <;> cases c <;>
        simp only [Assignment.with_rules, if_true, if_false, Bool.false_eq_true] <;>
        first
          | exact ih
          | exact countKey_add_base asg ih
          | exact countKey_add_custom asg ih
          | exact countKey_add_custom _ (countKey_add_base asg ih)

/-- C2: adding an arithmetic rule under a token replaces any prior rule
for that token (last write wins): after the add, the lookup for that
token yields exactly the new rule, every evaluation that selects that
token computes its value with the new rule only, and on every store
reachable through the public interface each token has at most one
arithmetic rule. -/
theorem claim2_arith_insert_replaces :
    (∀ (asg : Assignment) (t : SubstitutionToken) (r : ArithmeticRule),
        lookupAR (asg.add_arithmetic_rule t r).arithmetic_rules t = some r) ∧
    (∀ (asg : Assignment) (t : SubstitutionToken) (r : ArithmeticRule)
        (args : InputSet) (v : F64),
        (asg.add_arithmetic_rule t r).eval args = .ok (t, v) →
        v = r.apply args.d args.e args.f) ∧
    (∀ asg : Assignment, Reachable asg →
        ∀ t, countKey t asg.arithmetic_rules ≤ 1) := by
  refine ⟨?_, ?_, reachable_countKey_le_one⟩
  · intro asg t r
    exact lookupAR_insertAR_self asg.arithmetic_rules t r
  · intro asg t r args v h
    rw [Assignment.eval_eq] at h
    cases hsel : selectToken (asg.add_arithmetic_rule t r).logical_rules
        args.a args.b args.c with
    | none => rw [hsel] at h; exact Except.noConfusion h
    | some tok =>
        rw [hsel] at h
        dsimp only at h
        cases hlk : lookupAR (asg.add_arithmetic_rule t r).arithmetic_rules tok with
        | none => rw [hlk] at h; exact Except.noConfusion h
        | some rule =>
            rw [hlk] at h
            dsimp only at h
            simp only [Except.ok.injEq, Prod.mk.injEq] at h
            obtain ⟨rfl, rfl⟩ := h
            have hself := lookupAR_insertAR_self asg.arithmetic_rules tok r
            rw [show (asg.add_arithmetic_rule tok r).arithmetic_rules
                  = insertAR asg.arithmetic_rules tok r from rfl] at hlk
            rw [hself] at hlk
            cases hlk
            rfl

/-- Witness for C2: replacing the arithmetic rule for `M` makes
evaluation use the new rule, and the reachable store keeps at most one
rule per token. -/
theorem claim2_arith_insert_replaces_witness :
    (F64.num 7 = replaceExampleRule.apply 0 0 0) ∧
    countKey .M (replaceExampleBase.add_arithmetic_rule .M
      replaceExampleRule).arithmetic_rules ≤ 1 :=
  ⟨claim2_arith_insert_replaces.2.1 replaceExampleBase .M replaceExampleRule
      ⟨false, false, false, 0, 0, 0⟩ (.num 7) (by decide),
   claim2_arith_insert_replaces.2.2
      (replaceExampleBase.add_arithmetic_rule .M replaceExampleRule)
      (Reachable.add_arithmetic _ _ _
        (Reachable.add_arithmetic _ _ _
          (Reachable.add_logical _ _ Reachable.new))) .M⟩

theorem boolSingle_allowed {c : Char} (h : boolSingleTok c = true) :
    boolAllowedChar c = true := by
  simp only [boolSingleTok, Bool.or_eq_true, decide_eq_true_eq] at h
  simp only [boolAllowedChar, Bool.or_eq_true, decide_eq_true_eq]
  tauto

theorem boolPair_allowed {c1 c2 : Char} (h : boolPairTok c1 c2 = true) :
    boolAllowedChar c1 = true ∧ boolAllowedChar c2 = true := by
  simp only [boolPairTok, Bool.or_eq_true, Bool.and_eq_true, decide_eq_true_eq] at h
  simp only [boolAllowedChar, Bool.or_eq_true, decide_eq_true_eq]
  constructor <;> tauto

theorem boolTokSeg_allowed :
    ∀ s : List Char, boolTokSeg s = true → ∀ c ∈ s, boolAllowedChar c = true := by
  intro s
  induction s using boolTokSeg.induct with
  | case1 =>
      intro _ c hc
      cases hc
  | case2 c0 =>
      intro h c hc
      have hc0 : c = c0 := by simpa using hc
      subst hc0
      exact boolSingle_allowed (by simpa [boolTokSeg] using h)
  | case3 c1 c2 cs ih1 ih2 =>
      intro h c hc
      simp only [boolTokSeg, Bool.or_eq_true, Bool.and_eq_true] at h
      rcases List.mem_cons.mp hc with rfl | hc2
      · rcases h with ⟨h1, _⟩ | ⟨h1, _⟩
        · exact boolSingle_allowed h1
        · exact (boolPair_allowed h1).1
      · rcases List.mem_cons.mp hc2 with rfl | hc3
        · rcases h with ⟨_, h2⟩ | ⟨h1, _⟩
          · exact ih1 h2 c (by simp)
          · exact (boolPair_allowed h1).2
        · rcases h with ⟨_, h2⟩ | ⟨_, h2⟩
          · exact ih1 h2 c (by simp [hc3])
          · exact ih2 h2 c hc3

theorem aritWlMatch_allowed (s : List Char) (hs : aritWlMatch s = true) :
    ∀ c ∈ s, aritAllowedChar c = true := by
  cases s with
  | nil => intro c hc; cases hc
  | cons a l =>
      simp only [aritWlMatch, List.all_eq_true] at hs
      exact hs

/-- C3: string-rule validation enforces the per-family whitelist before
any compilation: any rule string containing a character outside its
family's whitelist (the arithmetic digit class being the full Unicode
Nd set, since the source regex's `\d` is Unicode-aware) — and, more
generally, any string the whitelist regex does not match — is rejected
with the `InvalidGrammar` error; in particular `"A && B"` is accepted
and `"A + B"` rejected for the boolean family, and `"D + E"` is
accepted and `"D && E"` rejected for the arithmetic family. -/
theorem claim3_whitelist_before_compile :
    (∀ (s : List Char) (c : Char), c ∈ s → boolAllowedChar c = false →
        LogicalRuleStr.validate s = .error .invalidGrammar) ∧
    (∀ s : List Char, boolWlMatch s = false →
        LogicalRuleStr.validate s = .error .invalidGrammar) ∧
    (∀ (s : List Char) (c : Char), c ∈ s → aritAllowedChar c = false →
        ArithmeticRuleStr.validate s = .error .invalidGrammar) ∧
    (∀ s : List Char, aritWlMatch s = false →
        ArithmeticRuleStr.validate s = .error .invalidGrammar) ∧
    LogicalRuleStr.validate (chars "A && B") = .ok () ∧
    LogicalRuleStr.validate (chars "A + B") = .error .invalidGrammar ∧
    ArithmeticRuleStr.validate (chars "D + E") = .ok (chars "D+E") ∧
    ArithmeticRuleStr.validate (chars "D && E") = .error .invalidGrammar := by
  have hbool : ∀ s : List Char, boolWlMatch s = false →
      LogicalRuleStr.validate s = .error .invalidGrammar := by
    intro s hw
    simp [LogicalRuleStr.validate, hw]
  have harit : ∀ s : List Char, aritWlMatch s = false →
      ArithmeticRuleStr.validate s = .error .invalidGrammar := by
    intro s hw
    simp [ArithmeticRuleStr.validate, hw]
  refine ⟨?_, hbool, ?_, harit, by decide, by decide, by decide, by decide⟩
  · intro s c hc hbad
    apply hbool
    cases hw : boolWlMatch s with
    | false => rfl
    | true =>
        exfalso
        have hseg : boolTokSeg s = true := by
          cases s with
          | nil => simp [boolWlMatch] at hw
          | cons a l => simpa [boolWlMatch] using hw
        have := boolTokSeg_allowed s hseg c hc
        rw [hbad] at this
        exact Bool.noConfusion this
  · intro s c hc hbad
    apply harit
    cases hw : aritWlMatch s with
    | false => rfl
    | true =>
        exfalso
        have := aritWlMatch_allowed s hw c hc
        rw [hbad] at this
        exact Bool.noConfusion this

/-- Witness for C3: the concrete rejections forced by the whitelist. -/
theorem claim3_whitelist_before_compile_witness :
    LogicalRuleStr.validate (chars "A + B") = .error .invalidGrammar ∧
    ArithmeticRuleStr.validate (chars "D && E") = .error .invalidGrammar :=
  ⟨claim3_whitelist_before_compile.1 (chars "A + B") '+' (by decide) (by decide),
   claim3_whitelist_before_compile.2.2.1 (chars "D && E") '&' (by decide) (by decide)⟩

/-- C4: every rule string that passes its family's whitelist is then
handed to the expression engine (the boolean family is evaluated under
the sample context `A = B = C = true`, the arithmetic family is
compiled), and an engine failure is reported as a `CompileError` — never
as `InvalidGrammar`; in particular the whitelisted-but-malformed strings
`"D ** E"` and `"&&A"` are rejected with a `CompileError`. -/
theorem claim4_compile_error_kind :
    (∀ s : List Char, boolWlMatch s = true →
        LogicalRuleStr.validate s = .ok () ∨
        ∃ er, LogicalRuleStr.validate s = .error (.compileError er)) ∧
    (∀ s : List Char, aritWlMatch s = true →
        (∃ ns, ArithmeticRuleStr.validate s = .ok ns) ∨
        ∃ er, ArithmeticRuleStr.validate s = .error (.compileError er)) ∧
    ArithmeticRuleStr.validate (chars "D ** E") =
      .error (.compileError .unexpectedToken) ∧
    LogicalRuleStr.validate (chars "&&A") =
      .error (.compileError .unexpectedToken) := by
  refine ⟨?_, ?_, by decide, by decide⟩
  · intro s hw
    simp only [LogicalRuleStr.validate, hw, if_true]
    cases he : evalBooleanWithContext s true true true with
    | error er => exact Or.inr ⟨er, rfl⟩
    | ok rb => exact Or.inl rfl
  · intro s hw
    simp only [ArithmeticRuleStr.validate, hw, if_true]
    cases hp : parseA (wrapMinus (s.filter (fun c => !c.isWhitespace))) with
    | error er => exact Or.inr ⟨er, rfl⟩
    | ok ast => exact Or.inl ⟨_, rfl⟩

/-- Witness for C4: both whitelisted sample strings fall into the
ok-or-compile-error dichotomy. -/
theorem claim4_compile_error_kind_witness :
    (LogicalRuleStr.validate (chars "A && B") = .ok () ∨
      ∃ er, LogicalRuleStr.validate (chars "A && B") = .error (.compileError er)) ∧
    ((∃ ns, ArithmeticRuleStr.validate (chars "D ** E") = .ok ns) ∨
      ∃ er, ArithmeticRuleStr.validate (chars "D ** E") = .error (.compileError er)) :=
  ⟨claim4_compile_error_kind.1 (chars "A && B") (by decide),
   claim4_compile_error_kind.2.1 (chars "D ** E") (by decide)⟩

/-- C7: the arithmetic string rule `"D / 0"` (division by a literal
zero) validates successfully, and applying it is a total operation that
returns the non-finite NaN value — not an error and not a crash — for
input `d = 1` and arbitrary `e`, `f`. -/
theorem claim7_div_by_zero_nan :
    ∃ r : ArithmeticRule,
      ArithmeticRuleStr.new (chars "D / 0") = .ok r ∧
      ∀ (e f : Int), r.apply 1 e f = .nan ∧ (r.apply 1 e f).isFinite = false := by
  refine ⟨.strRule (chars "D/0") ⟨chars "D / 0", by decide⟩, rfl, ?_⟩
  intro e f
  exact ⟨rfl, rfl⟩

/-- C8: with only the base rule set, evaluation of
`{a: true, b: true, c: false, d: 2, e: 3, f: 4}` yields `(M, 2.6)`; with
the base and custom rule sets (custom added after base), evaluation of
`{a: true, b: true, c: false, d: 2, e: 3, f: 15}` yields `(T, 1)`. -/
theorem claim8_end_to_end :
    (Assignment.new.with_rules true false).eval ⟨true, true, false, 2, 3, 4⟩
      = .ok (.M, .num 2.6) ∧
    (Assignment.new.with_rules true true).eval ⟨true, true, false, 2, 3, 15⟩
      = .ok (.T, .num 1) := by
  constructor <;>
    norm_num [Assignment.with_rules, Assignment.add_base_rules,
      Assignment.add_custom_rules, Assignment.add_logical_rule_from_fn,
      Assignment.add_arithmetic_rule_from_fn, Assignment.add_logical_rule,
      Assignment.add_arithmetic_rule, Assignment.new, Assignment.eval,
      selectToken, List.foldl, LogicalRule.apply, lookupAR, insertAR,
      ArithmeticRule.apply,
      (show SubstitutionToken.M ≠ SubstitutionToken.T by decide),
      (show SubstitutionToken.M ≠ SubstitutionToken.P by decide),
      (show SubstitutionToken.P ≠ SubstitutionToken.T by decide),
      (show SubstitutionToken.P ≠ SubstitutionToken.M by decide),
      (show SubstitutionToken.T ≠ SubstitutionToken.M by decide),
      (show SubstitutionToken.T ≠ SubstitutionToken.P by decide)]

/-- C9: adding a string rule is atomic with respect to validation
failure: whenever `add_logical_rule_from_str` or
`add_arithmetic_rule_from_str` reports an error, the returned store is
exactly the input store (both the logical sequence and the arithmetic
mapping are unchanged). -/
theorem claim9_add_from_str_atomic :
    ∀ (asg : Assignment) (t : SubstitutionToken) (s : List Char),
      ((asg.add_logical_rule_from_str t s).2.isOk = false →
        (asg.add_logical_rule_from_str t s).1 = asg) ∧
      ((asg.add_arithmetic_rule_from_str t s).2.isOk = false →
        (asg.add_arithmetic_rule_from_str t s).1 = asg) := by
  intro asg t s
  constructor
  · intro h
    cases hn : LogicalRuleStr.new t s with
    | error er => simp [Assignment.add_logical_rule_from_str, hn]
    | ok rule =>
        exfalso
        simp [Assignment.add_logical_rule_from_str, hn, Except.isOk, Except.toBool] at h
  · intro h
    cases hn : ArithmeticRuleStr.new s with
    | error er => simp [Assignment.add_arithmetic_rule_from_str, hn]
    | ok rule =>
        exfalso
        simp [Assignment.add_arithmetic_rule_from_str, hn, Except.isOk, Except.toBool] at h

/-- Witness for C9: failed adds of the invalid strings `"Z+X"` and
`"Z&&X"` leave the empty store untouched. -/
theorem claim9_add_from_str_atomic_witness :
    (Assignment.new.add_logical_rule_from_str .M (chars "Z+X")).1 = Assignment.new ∧
    (Assignment.new.add_arithmetic_rule_from_str .P (chars "Z&&X")).1 = Assignment.new :=
  ⟨(claim9_add_from_str_atomic Assignment.new .M (chars "Z+X")).1 (by decide),
   (claim9_add_from_str_atomic Assignment.new .P (chars "Z&&X")).2 (by decide)⟩

theorem validate_parseB_ok (s : List Char) (h : LogicalRuleStr.validate s = .ok ()) :
    ∃ ast, parseB s = .ok ast := by
  by_cases hw : boolWlMatch s
  · simp only [LogicalRuleStr.validate, hw, if_true] at h
    cases he : evalBooleanWithContext s true true true with
    | error er => rw [he] at h; exact Except.noConfusion h
    | ok rb =>
        simp only [evalBooleanWithContext] at he
        cases hp : parseB s with
        | error er => rw [hp] at he; exact Except.noConfusion he
        | ok ast => exact ⟨ast, rfl⟩
  · simp [LogicalRuleStr.validate, hw] at h

/-- C10: for every rule string accepted by logical-rule validation and
every boolean input triple, the stored expression evaluates to a boolean
without error (so the `unwrap` inside `LogicalRuleStr::apply` is
unreachable under the validation precondition), and `apply` returns the
rule's token exactly when the expression evaluates to true, and `none`
otherwise. -/
theorem claim10_validated_apply_total :
    ∀ (s : List Char) (tok : SubstitutionToken) (a b c : Bool)
      (h : LogicalRuleStr.validate s = .ok ()),
      ∃ r : Bool,
        evalBooleanWithContext s a b c = .ok r ∧
        LogicalRule.apply (.strRule tok s h) a b c =
          (if r then some tok else none) := by
  intro s tok a b c h
  obtain ⟨ast, hp⟩ := validate_parseB_ok s h
  refine ⟨evalB ast a b c, ?_, ?_⟩
  · simp [evalBooleanWithContext, hp]
  · simp [LogicalRule.apply, evalBooleanWithContext, hp]

/-- Witness for C10: the validated rule string `"A && B"` bound to token
`M`, applied at `a = true`, `b = false`, `c = true`. -/
theorem claim10_validated_apply_total_witness :
    ∃ r : Bool,
      evalBooleanWithContext (chars "A && B") true false true = .ok r ∧
      LogicalRule.apply (.strRule .M (chars "A && B") (by decide)) true false true =
        (if r then some .M else none) :=
  claim10_validated_apply_total (chars "A && B") .M true false true (by decide)
